import Mathlib

/-!
Verification of the BLOUcut timeline rendering core.

This file gives a shallow embedding, in Lean 4, of the keyframe/animation
engine (`src/core/keyframe.py`), the effect pipeline
(`src/effects/effect_engine.py`) and the compositor
(`src/core/compositor.py`), and proves properties of that embedding.

Modelling conventions:
- Python floats are modelled as rationals (`ℚ`); Python ints as `Int`.
- `None` results are modelled with `Option`; a raised exception that
  escapes a loader is modelled with `Except String`.
- External, non-algorithmic capabilities (disk reads via `cv2.imread`,
  `cv2.resize`, `cv2.warpAffine`, thumbnail generation, text drawing,
  non-NORMAL effect blend-mode formulas that need `sqrt`) are modelled
  as an explicit record of deterministic oracle functions (`Ext`).
- The global `np.random` generator state is modelled by explicit state
  passing of an `Rng` value (a sample stream plus a cursor); every draw
  advances the cursor.
- Raster images are width, height, and a pixel function.
-/

namespace BLOUcut

/-! ## Keyframe system (src/core/keyframe.py) -/

/-- InterpolationType enum (keyframe.py lines 11-18). -/
inductive InterpolationType where
  | linear
  | ease_in
  | ease_out
  | ease_in_out
  | bezier
  | hold
deriving DecidableEq

/-- The string value of each enum member (keyframe.py lines 13-18). -/
def InterpolationType.toStr : InterpolationType → String
  | .linear => "linear"
  | .ease_in => "ease_in"
  | .ease_out => "ease_out"
  | .ease_in_out => "ease_in_out"
  | .bezier => "bezier"
  | .hold => "hold"

/-- Enum lookup by value, `InterpolationType(s)`: `none` models the
`ValueError` Python raises for an unknown string. -/
def InterpolationType.ofString (s : String) : Option InterpolationType :=
  if s = "linear" then some .linear
  else if s = "ease_in" then some .ease_in
  else if s = "ease_out" then some .ease_out
  else if s = "ease_in_out" then some .ease_in_out
  else if s = "bezier" then some .bezier
  else if s = "hold" then some .hold
  else none

/-- Keyframe values (`value: Any` in the source).  The animatable
properties are scalars or fixed-length vectors of scalars; other values
are opaque and only compared / hard-cut, which `str` stands in for. -/
inductive Val where
  | num (q : ℚ)
  | lst (l : List ℚ)
  | str (s : String)
deriving DecidableEq

/-- A single keyframe (keyframe.py lines 20-30).  The control-point
defaults are those of `Keyframe.__init__`. -/
structure Keyframe where
  frame : Int
  value : Val
  interpolation : InterpolationType := .linear
  control_point_1 : ℚ × ℚ := (1/4, 1/10)
  control_point_2 : ℚ × ℚ := (1/4, 1)
deriving DecidableEq

/-- A keyframe track for one property (keyframe.py lines 54-60). -/
structure KeyframeTrack where
  property_name : String
  keyframes : List Keyframe := []
  enabled : Bool := true
deriving DecidableEq

/-- Stable insertion of a keyframe into a frame-ordered list; together
with `sortByFrame` this models the stable `list.sort(key=lambda kf:
kf.frame)` call in `add_keyframe` (keyframe.py line 71). -/
def orderedInsertKF (a : Keyframe) : List Keyframe → List Keyframe
  | [] => [a]
  | b :: l => if a.frame ≤ b.frame then a :: b :: l else b :: orderedInsertKF a l

/-- Stable sort of keyframes ascending by frame (keyframe.py line 71). -/
def sortByFrame : List Keyframe → List Keyframe
  | [] => []
  | b :: l => orderedInsertKF b (sortByFrame l)

/-- `KeyframeTrack.remove_keyframe_at_frame` (keyframe.py lines 75-77). -/
def KeyframeTrack.remove_keyframe_at_frame (t : KeyframeTrack) (frame : Int) :
    KeyframeTrack :=
  { t with keyframes := t.keyframes.filter (fun kf => kf.frame != frame) }

/-- `KeyframeTrack.add_keyframe` (keyframe.py lines 62-73): drop any
keyframe at the same frame, append the new one, re-sort by frame. -/
def KeyframeTrack.add_keyframe (t : KeyframeTrack) (frame : Int) (value : Val)
    (interpolation : InterpolationType) : KeyframeTrack :=
  let t := t.remove_keyframe_at_frame frame
  { t with
    keyframes :=
      sortByFrame (t.keyframes ++ [{ frame := frame, value := value,
                                     interpolation := interpolation }]) }

/-- The prev/next scan of `get_value_at_frame` (keyframe.py lines 91-99):
walk the list, remembering the last keyframe strictly before `frame`,
stopping at the first keyframe strictly after it. -/
def findPrevNext (frame : Int) :
    List Keyframe → Option Keyframe → Option Keyframe × Option Keyframe
  | [], prev => (prev, none)
  | kf :: rest, prev =>
    if kf.frame < frame then findPrevNext frame rest (some kf)
    else if frame < kf.frame then (prev, some kf)
    else findPrevNext frame rest prev

/-- Cubic-Bézier curve x-coordinate with endpoints (0,0), (1,1)
(keyframe.py lines 167-169). -/
def bezierX (te c1x c2x : ℚ) : ℚ :=
  3 * (1 - te) * (1 - te) * te * c1x + 3 * (1 - te) * te * te * c2x + te * te * te

/-- The derivative expression used by the Newton step (keyframe.py lines
175-179), exactly as written in the source. -/
def bezierDX (te c1x c2x : ℚ) : ℚ :=
  3 * (1 - te) * (1 - te) * c1x - 6 * (1 - te) * te * c1x +
    3 * (1 - te) * te * c2x + 3 * te * te * (c2x - c1x) + 3 * te * te

/-- One-sided clamp to [0,1] used on each Newton step and on the final
y value (keyframe.py lines 183 and 190). -/
def clamp01 (x : ℚ) : ℚ := max 0 (min 1 x)

/-- The Newton–Raphson loop of `_bezier_interpolation` (keyframe.py lines
166-183): at most 10 iterations, early exit at tolerance 0.001, the
estimate clamped to [0,1] whenever it is updated. -/
def bezierSolve : Nat → ℚ → ℚ → ℚ → ℚ → ℚ
  | 0, te, _, _, _ => te
  | n + 1, te, xt, c1x, c2x =>
    let xc := bezierX te c1x c2x
    if |xc - xt| < 1/1000 then te
    else
      let dxdt := bezierDX te c1x c2x
      let te2 := if 1/1000 < |dxdt| then clamp01 (te - (xc - xt) / dxdt) else te
      bezierSolve n te2 xt c1x c2x

/-- `KeyframeTrack._bezier_interpolation` (keyframe.py lines 157-190):
solve for the parameter whose curve x equals `t`, then return the curve
y at that parameter, clamped to [0,1]. -/
def bezier_interpolation (t : ℚ) (cp1 cp2 : ℚ × ℚ) : ℚ :=
  let tEst := bezierSolve 10 t t cp1.1 cp2.1
  let y := 3 * (1 - tEst) * (1 - tEst) * tEst * cp1.2 +
    3 * (1 - tEst) * tEst * tEst * cp2.2 + tEst * tEst * tEst
  max 0 (min 1 y)

/-- `KeyframeTrack._interpolate_values` (keyframe.py lines 137-155):
numbers blend linearly, equal-length numeric vectors blend element-wise,
anything else hard-cuts at progress 0.5. -/
def interpolate_values (start_value end_value : Val) (progress : ℚ) : Val :=
  match start_value, end_value with
  | .num a, .num b => .num (a + (b - a) * progress)
  | .lst a, .lst b =>
    if a.length = b.length then
      .lst (List.zipWith (fun x y => x + (y - x) * progress) a b)
    else if progress < 1/2 then .lst a else .lst b
  | a, b => if progress < 1/2 then a else b

/-- `KeyframeTrack._interpolate` (keyframe.py lines 112-135): raw
progress, HOLD short-circuit, easing reshape, then value blending. -/
def interpolateKF (prev_kf next_kf : Keyframe) (frame : Int) : Val :=
  let progress : ℚ :=
    ((frame : ℚ) - (prev_kf.frame : ℚ)) / ((next_kf.frame : ℚ) - (prev_kf.frame : ℚ))
  if prev_kf.interpolation = .hold then prev_kf.value
  else
    let progress :=
      match prev_kf.interpolation with
      | .ease_in => progress * progress
      | .ease_out => 1 - (1 - progress) * (1 - progress)
      | .ease_in_out =>
        if progress < 1/2 then 2 * progress * progress
        else 1 - 2 * (1 - progress) * (1 - progress)
      | .bezier =>
        bezier_interpolation progress prev_kf.control_point_1 prev_kf.control_point_2
      | _ => progress
    interpolate_values prev_kf.value next_kf.value progress

/-- `KeyframeTrack.get_value_at_frame` (keyframe.py lines 79-110). -/
def KeyframeTrack.get_value_at_frame (t : KeyframeTrack) (frame : Int) :
    Option Val :=
  if !t.enabled || t.keyframes.isEmpty then none
  else
    match t.keyframes.find? (fun kf => kf.frame == frame) with
    | some kf => some kf.value
    | none =>
      match findPrevNext frame t.keyframes none with
      | (none, _) =>
        match t.keyframes with
        | [] => none
        | k0 :: _ => some k0.value
      | (some p, none) => some p.value
      | (some p, some n) => some (interpolateKF p n frame)

/-- `KeyframeManager` (keyframe.py lines 216-220): the `tracks` dict is
modelled as an insertion-ordered association list, matching Python dict
semantics. -/
structure KeyframeManager where
  tracks : List (String × KeyframeTrack) := []
deriving DecidableEq

/-- Update the track stored under a property name, leaving others as is. -/
def updateTrack (l : List (String × KeyframeTrack)) (p : String)
    (f : KeyframeTrack → KeyframeTrack) : List (String × KeyframeTrack) :=
  l.map (fun q => if q.1 = p then (q.1, f q.2) else q)

/-- `KeyframeManager.add_keyframe` (keyframe.py lines 222-228): create
the track lazily, then delegate. -/
def KeyframeManager.add_keyframe (m : KeyframeManager) (property_name : String)
    (frame : Int) (value : Val) (interpolation : InterpolationType) :
    KeyframeManager :=
  let withTrack :=
    if (m.tracks.lookup property_name).isSome then m.tracks
    else m.tracks ++ [(property_name, { property_name := property_name })]
  { tracks := updateTrack withTrack property_name
      (fun t => t.add_keyframe frame value interpolation) }

/-- `KeyframeManager.remove_keyframe` (keyframe.py lines 230-233). -/
def KeyframeManager.remove_keyframe (m : KeyframeManager) (property_name : String)
    (frame : Int) : KeyframeManager :=
  { tracks := updateTrack m.tracks property_name
      (fun t => t.remove_keyframe_at_frame frame) }

/-- `KeyframeManager.get_value_at_frame` (keyframe.py lines 235-239). -/
def KeyframeManager.get_value_at_frame (m : KeyframeManager)
    (property_name : String) (frame : Int) : Option Val :=
  match m.tracks.lookup property_name with
  | none => none
  | some t => t.get_value_at_frame frame

/-! ### Persisted dictionary representation (to_dict / from_dict) -/

/-- The dict produced by `Keyframe.to_dict` / consumed by
`Keyframe.from_dict` (keyframe.py lines 32-52).  Keys that
`from_dict` reads with `.get` defaults are `Option`; `frame` and
`value` are accessed with mandatory indexing. -/
structure KeyframeDict where
  frame : Int
  value : Val
  interpolation : Option String := none
  control_point_1 : Option (ℚ × ℚ) := none
  control_point_2 : Option (ℚ × ℚ) := none
deriving DecidableEq

/-- `Keyframe.to_dict` (keyframe.py lines 32-40). -/
def Keyframe.to_dict (kf : Keyframe) : KeyframeDict :=
  { frame := kf.frame
    value := kf.value
    interpolation := some kf.interpolation.toStr
    control_point_1 := some kf.control_point_1
    control_point_2 := some kf.control_point_2 }

/-- `Keyframe.from_dict` (keyframe.py lines 42-52).  An unknown
interpolation string makes `InterpolationType(...)` raise `ValueError`,
modelled as `Except.error`; a missing key defaults to "linear". -/
def Keyframe.from_dict (d : KeyframeDict) : Except String Keyframe :=
  match InterpolationType.ofString (d.interpolation.getD "linear") with
  | none => .error "ValueError: not a valid InterpolationType"
  | some i =>
    .ok { frame := d.frame
          value := d.value
          interpolation := i
          control_point_1 := d.control_point_1.getD (1/4, 1/10)
          control_point_2 := d.control_point_2.getD (1/4, 1) }

/-- The dict form of one track (keyframe.py lines 200-214). -/
structure KeyframeTrackDict where
  property_name : String
  enabled : Option Bool := none
  keyframes : Option (List KeyframeDict) := none
deriving DecidableEq

/-- `KeyframeTrack.to_dict` (keyframe.py lines 200-206). -/
def KeyframeTrack.to_dict (t : KeyframeTrack) : KeyframeTrackDict :=
  { property_name := t.property_name
    enabled := some t.enabled
    keyframes := some (t.keyframes.map Keyframe.to_dict) }

/-- Sequential traversal with exception propagation: the semantics of a
Python list comprehension whose body may raise. -/
def mapExcept {α β : Type} (f : α → Except String β) : List α → Except String (List β)
  | [] => .ok []
  | a :: l =>
    match f a with
    | .error e => .error e
    | .ok b =>
      match mapExcept f l with
      | .error e => .error e
      | .ok bs => .ok (b :: bs)

/-- `KeyframeTrack.from_dict` (keyframe.py lines 208-214): the list
comprehension propagates any exception raised by a single keyframe. -/
def KeyframeTrack.from_dict (d : KeyframeTrackDict) : Except String KeyframeTrack :=
  match mapExcept Keyframe.from_dict (d.keyframes.getD []) with
  | .error e => .error e
  | .ok kfs =>
    .ok { property_name := d.property_name
          enabled := d.enabled.getD true
          keyframes := kfs }

/-- The dict form of a whole `KeyframeManager` (keyframe.py lines 276-289). -/
structure KeyframeManagerDict where
  tracks : Option (List (String × KeyframeTrackDict)) := none
deriving DecidableEq

/-- `KeyframeManager.to_dict` (keyframe.py lines 276-280). -/
def KeyframeManager.to_dict (m : KeyframeManager) : KeyframeManagerDict :=
  { tracks := some (m.tracks.map (fun pt => (pt.1, pt.2.to_dict))) }

/-- `KeyframeManager.from_dict` (keyframe.py lines 282-289): the loop
over `tracks_data.items()`; an exception from any track aborts the load. -/
def KeyframeManager.from_dict (d : KeyframeManagerDict) :
    Except String KeyframeManager :=
  match mapExcept
      (fun pt =>
        match KeyframeTrack.from_dict pt.2 with
        | .error e => .error e
        | .ok t => .ok (pt.1, t))
      (d.tracks.getD []) with
  | .error e => .error e
  | .ok ts => .ok { tracks := ts }

/-! ## Sortedness invariant of keyframe tracks -/

/-- Strict frame order between two keyframes. -/
def kfLT (a b : Keyframe) : Prop := a.frame < b.frame

/-- Non-strict frame order between two keyframes (the sort key order). -/
def kfLE (a b : Keyframe) : Prop := a.frame ≤ b.frame

/-- Distinct frames. -/
def kfNE (a b : Keyframe) : Prop := a.frame ≠ b.frame

/-- The track invariant: keyframes strictly ascending by frame, hence at
most one keyframe per frame. -/
def FramesSorted (l : List Keyframe) : Prop := l.Pairwise kfLT

instance : DecidableRel kfLT := fun a b =>
  inferInstanceAs (Decidable (a.frame < b.frame))

instance (l : List Keyframe) : Decidable (FramesSorted l) :=
  inferInstanceAs (Decidable (l.Pairwise kfLT))

theorem orderedInsertKF_perm (a : Keyframe) (l : List Keyframe) :
    List.Perm (orderedInsertKF a l) (a :: l) := by
  induction l with
  | nil => simp [orderedInsertKF]
  | cons b l ih =>
    by_cases h : a.frame ≤ b.frame
    · simp [orderedInsertKF, h]
    · simp only [orderedInsertKF, if_neg h]
      exact (ih.cons b).trans (List.Perm.swap a b l)

theorem pairwise_le_orderedInsertKF (a : Keyframe) {l : List Keyframe}
    (h : l.Pairwise kfLE) : (orderedInsertKF a l).Pairwise kfLE := by
  induction l with
  | nil => simp [orderedInsertKF]
  | cons b l ih =>
    rcases List.pairwise_cons.mp h with ⟨hb, hl⟩
    by_cases hab : a.frame ≤ b.frame
    · simp only [orderedInsertKF, if_pos hab]
      refine List.pairwise_cons.mpr ⟨?_, h⟩
      intro x hx
      rcases List.mem_cons.mp hx with rfl | hx2
      · exact hab
      · exact le_trans hab (hb x hx2)
    · simp only [orderedInsertKF, if_neg hab]
      refine List.pairwise_cons.mpr ⟨?_, ih hl⟩
      intro x hx
      rcases List.mem_cons.mp ((orderedInsertKF_perm a l).mem_iff.mp hx) with rfl | hx2
      · exact le_of_lt (not_le.mp hab)
      · exact hb x hx2

theorem sortByFrame_perm (l : List Keyframe) : List.Perm (sortByFrame l) l := by
  induction l with
  | nil => simp [sortByFrame]
  | cons a l ih =>
    exact (orderedInsertKF_perm a (sortByFrame l)).trans (ih.cons a)

theorem pairwise_le_sortByFrame (l : List Keyframe) :
    (sortByFrame l).Pairwise kfLE := by
  induction l with
  | nil => simp [sortByFrame]
  | cons a l ih => exact pairwise_le_orderedInsertKF a ih

theorem kfNE_symmetric : Symmetric kfNE := fun _ _ h => Ne.symm h

theorem framesSorted_of_le_ne {l : List Keyframe}
    (hle : l.Pairwise kfLE) (hne : l.Pairwise kfNE) : FramesSorted l :=
  (hle.and hne).imp (fun h => lt_of_le_of_ne h.1 h.2)

theorem framesSorted_pairwise_ne {l : List Keyframe} (hs : FramesSorted l) :
    l.Pairwise kfNE :=
  hs.imp (fun h => ne_of_lt h)

theorem remove_keyframe_framesSorted (t : KeyframeTrack)
    (hs : FramesSorted t.keyframes) (frame : Int) :
    FramesSorted ((t.remove_keyframe_at_frame frame).keyframes) :=
  List.Pairwise.filter _ hs

theorem add_keyframe_keyframes_eq (t : KeyframeTrack) (frame : Int) (value : Val)
    (interp : InterpolationType) :
    (t.add_keyframe frame value interp).keyframes =
      sortByFrame (t.keyframes.filter (fun kf => kf.frame != frame) ++
        [{ frame := frame, value := value, interpolation := interp }]) := rfl

theorem add_keyframe_framesSorted (t : KeyframeTrack) (hs : FramesSorted t.keyframes)
    (frame : Int) (value : Val) (interp : InterpolationType) :
    FramesSorted ((t.add_keyframe frame value interp).keyframes) := by
  rw [FramesSorted, add_keyframe_keyframes_eq]
  have hne := framesSorted_pairwise_ne hs
  have hfilter : (t.keyframes.filter (fun kf => kf.frame != frame)).Pairwise kfNE :=
    hne.filter _
  have happend : (t.keyframes.filter (fun kf => kf.frame != frame) ++
      [({ frame := frame, value := value, interpolation := interp } : Keyframe)]).Pairwise
        kfNE := by
    rw [List.pairwise_append]
    refine ⟨hfilter, List.pairwise_singleton _ _, ?_⟩
    intro x hx y hy
    rcases List.mem_singleton.mp hy with rfl
    have hxne := (List.mem_filter.mp hx).2
    simpa [kfNE] using hxne
  have hperm := sortByFrame_perm (t.keyframes.filter (fun kf => kf.frame != frame) ++
    [({ frame := frame, value := value, interpolation := interp } : Keyframe)])
  have hle := pairwise_le_sortByFrame (t.keyframes.filter (fun kf => kf.frame != frame) ++
    [({ frame := frame, value := value, interpolation := interp } : Keyframe)])
  have hne2 := happend.perm hperm.symm (fun hxy => Ne.symm hxy)
  exact framesSorted_of_le_ne hle hne2

theorem add_keyframe_countP (t : KeyframeTrack) (frame : Int) (value : Val)
    (interp : InterpolationType) :
    ((t.add_keyframe frame value interp).keyframes.countP
      (fun kf => kf.frame == frame)) = 1 := by
  have hperm := sortByFrame_perm (t.keyframes.filter (fun kf => kf.frame != frame) ++
    [({ frame := frame, value := value, interpolation := interp } : Keyframe)])
  have heq := hperm.countP_eq (fun kf => kf.frame == frame)
  rw [add_keyframe_keyframes_eq, heq, List.countP_append]
  have h0 : (t.keyframes.filter (fun kf => kf.frame != frame)).countP
      (fun kf => kf.frame == frame) = 0 := by
    rw [List.countP_eq_zero]
    intro a ha
    have hbne := (List.mem_filter.mp ha).2
    simp only [bne_iff_ne, ne_eq] at hbne
    simp [hbne]
  rw [h0]
  simp [List.countP_cons]

/-- Claim C3: a property track satisfying the sortedness invariant
(strictly ascending frames, hence at most one keyframe per frame) keeps
satisfying it after `add_keyframe` and after `remove_keyframe_at_frame`;
moreover after `add_keyframe frame v i` exactly one keyframe carries
that frame number (same-frame keyframes are replaced, never
duplicated).  Preservation by each operation extends to every sequence
of such operations, the empty track satisfying the invariant trivially. -/
theorem track_invariant_add_remove (t : KeyframeTrack)
    (hs : FramesSorted t.keyframes) (frame : Int) (value : Val)
    (interp : InterpolationType) :
    FramesSorted ((t.add_keyframe frame value interp).keyframes) ∧
    ((t.add_keyframe frame value interp).keyframes.countP
      (fun kf => kf.frame == frame)) = 1 ∧
    FramesSorted ((t.remove_keyframe_at_frame frame).keyframes) :=
  ⟨add_keyframe_framesSorted t hs frame value interp,
   add_keyframe_countP t frame value interp,
   remove_keyframe_framesSorted t hs frame⟩

/-! ## Evaluation lemmas for `get_value_at_frame` -/

theorem find?_eq_of_mem_sorted {l : List Keyframe} (hs : FramesSorted l)
    {kf : Keyframe} (hm : kf ∈ l) :
    l.find? (fun k => k.frame == kf.frame) = some kf := by
  induction l with
  | nil => cases hm
  | cons x xs ih =>
    rcases List.pairwise_cons.mp hs with ⟨hx, hxs⟩
    rcases List.mem_cons.mp hm with rfl | hm2
    · exact List.find?_cons_of_pos _ (by simp)
    · have hlt : x.frame < kf.frame := hx kf hm2
      rw [List.find?_cons_of_neg _ (by simp [ne_of_lt hlt])]
      exact ih hxs hm2

theorem sorted_le_getLast :
    ∀ {l : List Keyframe}, FramesSorted l →
      ∀ {kl : Keyframe}, l.getLast? = some kl → ∀ k ∈ l, k.frame ≤ kl.frame := by
  intro l
  induction l with
  | nil => intro _ kl h; cases h
  | cons x xs ih =>
    intro hs kl hl k hk
    cases xs with
    | nil =>
      have hx : kl = x := by
        have : some x = some kl := hl
        exact (Option.some_inj.mp this).symm
      rcases List.mem_singleton.mp hk with rfl
      simp [hx]
    | cons y ys =>
      rw [List.getLast?_cons_cons] at hl
      rcases List.mem_cons.mp hk with rfl | hk2
      · have hklmem : kl ∈ y :: ys := List.mem_of_mem_getLast? hl
        exact le_of_lt ((List.pairwise_cons.mp hs).1 kl hklmem)
      · exact ih (List.pairwise_cons.mp hs).2 hl k hk2

theorem findPrevNext_cons_lt {frame : Int} (x : Keyframe) (xs : List Keyframe)
    (p : Option Keyframe) (h : x.frame < frame) :
    findPrevNext frame (x :: xs) p = findPrevNext frame xs (some x) := by
  simp only [findPrevNext, if_pos h]

theorem findPrevNext_all_lt {frame : Int} :
    ∀ (l : List Keyframe) (p : Option Keyframe), l ≠ [] →
      (∀ k ∈ l, k.frame < frame) →
      findPrevNext frame l p = (l.getLast?, none) := by
  intro l
  induction l with
  | nil => intro p h; cases h rfl
  | cons x xs ih =>
    intro p _ hall
    have hx : x.frame < frame := hall x (List.mem_cons_self x xs)
    cases xs with
    | nil => simp [findPrevNext, hx]
    | cons y ys =>
      have hih := ih (some x) (by simp) (fun k hk => hall k (List.mem_cons_of_mem x hk))
      rw [findPrevNext_cons_lt x (y :: ys) p hx, hih, List.getLast?_cons_cons]

theorem findPrevNext_head_gt {frame : Int} {x : Keyframe} (xs : List Keyframe)
    (h : frame < x.frame) (p : Option Keyframe) :
    findPrevNext frame (x :: xs) p = (p, some x) := by
  have hnot : ¬x.frame < frame := not_lt_of_gt h
  simp [findPrevNext, hnot, h]

/-- Claim C2: for a track whose keyframe list satisfies the sortedness
invariant, `get_value_at_frame` returns `none` when the track is
disabled or empty; returns a keyframe's stored value verbatim when
queried exactly at that keyframe's frame; clamps to the first
keyframe's value before the first keyframe; and clamps to the last
keyframe's value after the last keyframe. -/
theorem evaluate_exact_clamp_none (t : KeyframeTrack)
    (hs : FramesSorted t.keyframes) :
    ((t.enabled = false ∨ t.keyframes = []) →
      ∀ f, t.get_value_at_frame f = none) ∧
    (t.enabled = true →
      ∀ kf ∈ t.keyframes, t.get_value_at_frame kf.frame = some kf.value) ∧
    (t.enabled = true → ∀ f k0 ks, t.keyframes = k0 :: ks → f < k0.frame →
      t.get_value_at_frame f = some k0.value) ∧
    (t.enabled = true → ∀ f kl, t.keyframes.getLast? = some kl → kl.frame < f →
      t.get_value_at_frame f = some kl.value) := by
  refine ⟨?_, ?_, ?_, ?_⟩
  · rintro (h | h) f <;> simp [KeyframeTrack.get_value_at_frame, h]
  · intro hen kf hm
    have hne : t.keyframes ≠ [] := List.ne_nil_of_mem hm
    have hfind := find?_eq_of_mem_sorted hs hm
    simp [KeyframeTrack.get_value_at_frame, hen, hne, hfind]
  · intro hen f k0 ks hkeys hf
    have hs2 : FramesSorted (k0 :: ks) := hkeys ▸ hs
    have hfind : (k0 :: ks).find? (fun k => k.frame == f) = none := by
      rw [List.find?_eq_none]
      intro k hk
      have hle : k0.frame ≤ k.frame := by
        rcases List.mem_cons.mp hk with rfl | hk2
        · exact le_refl _
        · exact le_of_lt ((List.pairwise_cons.mp hs2).1 k hk2)
      have hne2 : f ≠ k.frame := ne_of_lt (lt_of_lt_of_le hf hle)
      simp [hne2.symm]
    have hpn : findPrevNext f (k0 :: ks) none = (none, some k0) :=
      findPrevNext_head_gt ks hf none
    simp [KeyframeTrack.get_value_at_frame, hen, hkeys, hfind, hpn]
  · intro hen f kl hlast hf
    have hne : t.keyframes ≠ [] := by
      intro h
      rw [h] at hlast
      cases hlast
    have hall : ∀ k ∈ t.keyframes, k.frame < f :=
      fun k hk => lt_of_le_of_lt (sorted_le_getLast hs hlast k hk) hf
    have hfind : t.keyframes.find? (fun k => k.frame == f) = none := by
      rw [List.find?_eq_none]
      intro k hk
      have : k.frame ≠ f := ne_of_lt (hall k hk)
      simp [this]
    have hpn := findPrevNext_all_lt t.keyframes none hne hall
    rw [hlast] at hpn
    simp [KeyframeTrack.get_value_at_frame, hen, hne, hfind, hpn]

/-! ## Concrete fixtures used by witnesses -/

def kfW1 : Keyframe := { frame := 0, value := .num 5 }

def kfW2 : Keyframe := { frame := 10, value := .num 7 }

def trackW : KeyframeTrack := { property_name := "opacity", keyframes := [kfW1, kfW2] }

/-- Witness for the claim-C2 theorem at a concrete two-keyframe track:
exact hit at frame 10, clamp before the first and after the last
keyframe. -/
theorem evaluate_exact_clamp_none_witness :
    trackW.get_value_at_frame 10 = some (Val.num 7) ∧
    trackW.get_value_at_frame (-5) = some (Val.num 5) ∧
    trackW.get_value_at_frame 50 = some (Val.num 7) := by
  have h := evaluate_exact_clamp_none trackW (by decide)
  exact ⟨h.2.1 rfl kfW2 (by simp [trackW]),
         h.2.2.1 rfl (-5) kfW1 [kfW2] rfl (by decide),
         h.2.2.2 rfl 50 kfW2 rfl (by decide)⟩

/-- Witness for the claim-C3 theorem: adding a keyframe at an occupied
frame of a concrete track keeps the invariant and leaves exactly one
keyframe at that frame. -/
theorem track_invariant_add_remove_witness :
    FramesSorted ((trackW.add_keyframe 10 (Val.num 9) .hold).keyframes) ∧
    ((trackW.add_keyframe 10 (Val.num 9) .hold).keyframes.countP
      (fun kf => kf.frame == 10)) = 1 ∧
    FramesSorted ((trackW.remove_keyframe_at_frame 10).keyframes) :=
  track_invariant_add_remove trackW (by decide) 10 (Val.num 9) .hold

/-! ## Bézier boundedness (Claim C8) -/

theorem bezier_interpolation_bounds (p : ℚ) (cp1 cp2 : ℚ × ℚ) :
    0 ≤ bezier_interpolation p cp1 cp2 ∧ bezier_interpolation p cp1 cp2 ≤ 1 := by
  unfold bezier_interpolation
  constructor
  · exact le_max_left _ _
  · exact max_le (by norm_num) (min_le_left _ _)

theorem lerp_mem_interval (a b t : ℚ) (h0 : 0 ≤ t) (h1 : t ≤ 1) :
    min a b ≤ a + (b - a) * t ∧ a + (b - a) * t ≤ max a b := by
  rcases le_total a b with h | h
  · rw [min_eq_left h, max_eq_right h]
    constructor <;> nlinarith
  · rw [min_eq_right h, max_eq_left h]
    constructor <;> nlinarith

/-- Claim C8: the Newton-Raphson Bézier solve always produces a reshaped
progress in [0,1] (the final y is clamped), and therefore interpolating
between two bracketing BEZIER keyframes with scalar values always
returns a value inside the closed interval spanned by the two keyframe
values, for any control points. -/
theorem bezier_progress_and_value_bounded (p : ℚ) (cp1 cp2 : ℚ × ℚ)
    (prev_kf next_kf : Keyframe) (frame : Int) (a b : ℚ)
    (hi : prev_kf.interpolation = .bezier)
    (ha : prev_kf.value = .num a) (hb : next_kf.value = .num b)
    (h1 : prev_kf.frame < frame) (h2 : frame < next_kf.frame) :
    (0 ≤ bezier_interpolation p cp1 cp2 ∧ bezier_interpolation p cp1 cp2 ≤ 1) ∧
    ∃ v, interpolateKF prev_kf next_kf frame = .num v ∧
      min a b ≤ v ∧ v ≤ max a b := by
  refine ⟨bezier_interpolation_bounds p cp1 cp2, ?_⟩
  have hred : interpolateKF prev_kf next_kf frame =
      interpolate_values prev_kf.value next_kf.value
        (bezier_interpolation
          (((frame : ℚ) - (prev_kf.frame : ℚ)) /
            ((next_kf.frame : ℚ) - (prev_kf.frame : ℚ)))
          prev_kf.control_point_1 prev_kf.control_point_2) := by
    simp [interpolateKF, hi]
  obtain ⟨hb0, hb1⟩ := bezier_interpolation_bounds
    (((frame : ℚ) - (prev_kf.frame : ℚ)) /
      ((next_kf.frame : ℚ) - (prev_kf.frame : ℚ)))
    prev_kf.control_point_1 prev_kf.control_point_2
  rw [hred, ha, hb]
  set bpr := bezier_interpolation
    (((frame : ℚ) - (prev_kf.frame : ℚ)) /
      ((next_kf.frame : ℚ) - (prev_kf.frame : ℚ)))
    prev_kf.control_point_1 prev_kf.control_point_2 with hbpr
  exact ⟨a + (b - a) * bpr, rfl,
    (lerp_mem_interval a b bpr hb0 hb1).1,
    (lerp_mem_interval a b bpr hb0 hb1).2⟩

def kfB1 : Keyframe := { frame := 0, value := .num 10, interpolation := .bezier }

def kfB2 : Keyframe := { frame := 10, value := .num 20 }

/-- Witness for the claim-C8 theorem at concrete BEZIER keyframes with
the default control points. -/
theorem bezier_progress_and_value_bounded_witness :
    ((0 : ℚ) ≤ bezier_interpolation (1/2) (1/4, 1/10) (1/4, 1) ∧
      bezier_interpolation (1/2) (1/4, 1/10) (1/4, 1) ≤ 1) ∧
    ∃ v, interpolateKF kfB1 kfB2 5 = .num v ∧
      min (10 : ℚ) 20 ≤ v ∧ v ≤ max (10 : ℚ) 20 :=
  bezier_progress_and_value_bounded (1/2) (1/4, 1/10) (1/4, 1) kfB1 kfB2 5 10 20
    rfl rfl rfl (by decide) (by decide)

/-! ## Round-trip of the persisted representation (Claim C7) -/

theorem keyframe_roundtrip (kf : Keyframe) :
    Keyframe.from_dict kf.to_dict = .ok kf := by
  rcases kf with ⟨f, v, i, c1, c2⟩
  cases i <;> rfl

theorem mapExcept_roundtrip_kfs (l : List Keyframe) :
    mapExcept Keyframe.from_dict (l.map Keyframe.to_dict) = .ok l := by
  induction l with
  | nil => rfl
  | cons kf l ih => simp [mapExcept, keyframe_roundtrip kf, ih]

theorem track_roundtrip (t : KeyframeTrack) :
    KeyframeTrack.from_dict t.to_dict = .ok t := by
  rcases t with ⟨p, kfs, en⟩
  simp [KeyframeTrack.from_dict, KeyframeTrack.to_dict, mapExcept_roundtrip_kfs]

theorem mapExcept_roundtrip_tracks (l : List (String × KeyframeTrack)) :
    mapExcept (fun pt =>
      match KeyframeTrack.from_dict pt.2 with
      | .error e => .error e
      | .ok t => .ok (pt.1, t)) (l.map (fun pt => (pt.1, pt.2.to_dict))) = .ok l := by
  induction l with
  | nil => rfl
  | cons pt l ih =>
    rcases pt with ⟨s, t⟩
    simp [mapExcept, track_roundtrip t, ih]

/-- Claim C7: serializing a whole AnimationSet to the persisted dict
representation and loading it back succeeds and returns a structurally
identical AnimationSet, so the loaded set evaluates identically to the
original at every property and frame (in particular at keyframe frames
and at any interpolated sample frames in between). -/
theorem animation_set_roundtrip (m : KeyframeManager) :
    KeyframeManager.from_dict m.to_dict = .ok m ∧
    ∀ m2, KeyframeManager.from_dict m.to_dict = .ok m2 →
      ∀ property_name frame,
        m2.get_value_at_frame property_name frame =
          m.get_value_at_frame property_name frame := by
  have h : KeyframeManager.from_dict m.to_dict = .ok m := by
    rcases m with ⟨ts⟩
    simp [KeyframeManager.from_dict, KeyframeManager.to_dict, mapExcept_roundtrip_tracks]
  refine ⟨h, ?_⟩
  intro m2 h2 p f
  rw [h] at h2
  obtain rfl : m = m2 := Except.ok.inj h2
  rfl

def mgrW : KeyframeManager := { tracks := [("opacity", trackW)] }

/-- Witness for the claim-C7 theorem at a concrete AnimationSet. -/
theorem animation_set_roundtrip_witness :
    KeyframeManager.from_dict mgrW.to_dict = .ok mgrW ∧
    mgrW.get_value_at_frame "opacity" 5 = mgrW.get_value_at_frame "opacity" 5 :=
  ⟨(animation_set_roundtrip mgrW).1,
   (animation_set_roundtrip mgrW).2 mgrW (animation_set_roundtrip mgrW).1 "opacity" 5⟩

/-! ## Loading malformed keyframe data (Claim C6) -/

def badKeyframeDict : KeyframeDict :=
  { frame := 0, value := .num 1, interpolation := some "smooth" }

def badAnimationSetDict : KeyframeManagerDict :=
  { tracks := some [("opacity",
      { property_name := "opacity", enabled := some true,
        keyframes := some [badKeyframeDict] })] }

/-- Claim C6, evaluated on the code at the failing input: a persisted
AnimationSet containing one keyframe with the unknown interpolation
string "smooth" makes the whole `KeyframeManager.from_dict` load abort
with the `ValueError` raised by `InterpolationType(...)` - the loader
does not default the keyframe to LINEAR and does not continue. -/
theorem load_unknown_interpolation_aborts :
    KeyframeManager.from_dict badAnimationSetDict =
      .error "ValueError: not a valid InterpolationType" := by
  rfl

/-! ## Raster images and pixel arithmetic -/

/-- One BGR pixel; channel values are the rationals representing the
stored uint8 floats. -/
structure RGB where
  r : ℚ
  g : ℚ
  b : ℚ
deriving DecidableEq

def RGB.mapc (f : ℚ → ℚ) (a : RGB) : RGB := ⟨f a.r, f a.g, f a.b⟩

def RGB.map2 (f : ℚ → ℚ → ℚ) (a b : RGB) : RGB := ⟨f a.r b.r, f a.g b.g, f a.b b.b⟩

/-- A raster image: dimensions plus the pixel function (row, column). -/
structure Image where
  width : Int
  height : Int
  pix : Int → Int → RGB

/-- `.astype(np.uint8)` applied to a nonnegative in-range float:
truncation of the fractional part. -/
def astypeU8 (v : ℚ) : ℚ := ((Int.floor v : Int) : ℚ)

/-- `np.clip(v, 0, 255).astype(np.uint8)`. -/
def npU8 (v : ℚ) : ℚ := ((Int.floor (max 0 (min 255 v)) : Int) : ℚ)

/-- OpenCV rounding of a nonnegative value, modelled half-up. -/
def cvRound (x : ℚ) : ℚ := ((Int.floor (x + 1/2) : Int) : ℚ)

/-- `cv2.convertScaleAbs(img, alpha, beta)`: per channel
`saturate_u8(round(|alpha*v + beta|))`. -/
def convertScaleAbs (img : Image) (alpha beta : ℚ) : Image :=
  { img with pix := fun y x =>
      (RGB.mapc (fun v => min 255 (cvRound |alpha * v + beta|)) (img.pix y x)) }

/-- `cv2.addWeighted(a, alpha, b, beta, 0)`:
`saturate_u8(round(alpha*a + beta*b))` per channel. -/
def addWeighted (a : Image) (alpha : ℚ) (b : Image) (beta : ℚ) : Image :=
  { a with pix := fun y x =>
      (RGB.map2 (fun u v => max 0 (min 255 (cvRound (alpha * u + beta * v))))
        (a.pix y x) (b.pix y x)) }

/-! ## Effect pipeline (src/effects/effect_engine.py) -/

/-- Blend modes of the effect engine (effect_engine.py lines 22-31). -/
inductive BlendMode where
  | normal
  | multiply
  | screen
  | overlay
  | soft_light
  | hard_light
  | add
  | subtract
deriving DecidableEq

/-- The global `np.random` generator, modelled by explicit state
passing: an infinite sample stream (the draws the generator would
produce, already distribution-shaped) and a cursor; each draw consumes
one stream position. -/
structure Rng where
  stream : Nat → ℚ
  cursor : Nat

/-- Position of the sample `np.random.normal(0, sigma, (h, w, 3))`
assigns to pixel (y, x) channel c when drawing row-major. -/
def noiseSampleIndex (w : Int) (y x : Int) (c : Nat) : Nat :=
  (y.toNat * w.toNat + x.toNat) * 3 + c

/-- `NoiseEffect.apply` (effect_engine.py lines 219-249), for the default
gaussian type with monochrome=False: `amount = param/100`, additive
noise `np.random.normal(0, amount*255, image.shape)`, result
`np.clip(image + noise, 0, 255).astype(np.uint8)`.  One fresh sample is
drawn per pixel channel, advancing the global generator. -/
def noiseApply (amountParam : ℚ) (image : Image) (rng : Rng) : Image × Rng :=
  let amount := amountParam / 100
  let sigma := amount * 255
  ({ image with pix := fun y x =>
      let base := image.pix y x
      { r := npU8 (base.r + sigma * rng.stream (rng.cursor + noiseSampleIndex image.width y x 0))
        g := npU8 (base.g + sigma * rng.stream (rng.cursor + noiseSampleIndex image.width y x 1))
        b := npU8 (base.b + sigma * rng.stream (rng.cursor + noiseSampleIndex image.width y x 2)) } },
   { rng with cursor := rng.cursor + image.height.toNat * image.width.toNat * 3 })

/-- The per-effect image transform.  `noise` models `NoiseEffect.apply`;
every other effect of the engine (color correction, blur, sharpen,
vignette) reads no randomness, and such an `apply` is modelled by the
pure image function it computes. -/
inductive EffectKernel where
  | noise (amount : ℚ)
  | deterministic (f : Image → Image)

/-- An `Effect` (effect_engine.py lines 33-42): enabled flag, own
opacity, own blend mode, and its transform. -/
structure Effect where
  kernel : EffectKernel
  enabled : Bool := true
  opacity : ℚ := 100
  blend_mode : BlendMode := .normal

/-- The external capabilities the compositor calls out to (file system
reads through cv2, resizing, affine warps, the audio-waveform drawing,
and the non-NORMAL blend-mode formulas, which need real-valued sqrt):
a record of deterministic oracle functions. -/
structure Ext where
  loadImage : Int → Int → String → Option Image
  loadVideoFrame : Int → Int → String → Int → Option Image
  audioViz : Int → Int → String → Int → Image
  resizeTo : Image → Int → Int → Image
  warpRotate : Image → ℚ → Image
  translateBy : Image → ℚ → ℚ → Image
  blendNonNormal : BlendMode → Image → Image → Image

/-- `EffectEngine._apply_blend_mode` (effect_engine.py lines 330-369):
normalize to [0,1], combine, then `np.clip(result*255,0,255)` back to
uint8.  For NORMAL the result is the overlay; the other formulas live
in the oracle. -/
def applyBlendMode (ext : Ext) (base overlay : Image) (bm : BlendMode) : Image :=
  match bm with
  | .normal =>
    { overlay with pix := fun y x =>
        (RGB.mapc (fun o => npU8 (o / 255 * 255)) (overlay.pix y x)) }
  | _ => ext.blendNonNormal bm base overlay

/-- Run one effect transform (`effect.apply(result, frame=frame)`). -/
def applyEffectKernel (e : Effect) (result : Image) (rng : Rng) : Image × Rng :=
  match e.kernel with
  | .noise amount => noiseApply amount result rng
  | .deterministic f => (f result, rng)

/-- The loop body of `EffectEngine.apply_effects` (effect_engine.py
lines 303-328): skip disabled effects; apply; if the effect opacity is
below 100 blend the processed image back over the pre-effect image with
`cv2.addWeighted`; then composite through the blend mode. -/
def applyEffectsGo (ext : Ext) : List Effect → Image × Rng → Image × Rng
  | [], acc => acc
  | e :: rest, (result, rng) =>
    if e.enabled = false then applyEffectsGo ext rest (result, rng)
    else
      let pr := applyEffectKernel e result rng
      let processed :=
        if e.opacity < 100 then
          addWeighted result (1 - e.opacity / 100) pr.1 (e.opacity / 100)
        else pr.1
      applyEffectsGo ext rest (applyBlendMode ext result processed e.blend_mode, pr.2)

/-- `EffectEngine.apply_effects` (effect_engine.py lines 303-328). -/
def EffectEngine.apply_effects (ext : Ext) (image : Image) (effects : List Effect)
    (rng : Rng) : Image × Rng :=
  applyEffectsGo ext effects (image, rng)

/-! ## Compositor (src/core/compositor.py) -/

/-- `Transform.__init__` defaults (compositor.py lines 20-26). -/
structure Transform where
  position_x : ℚ := 0
  position_y : ℚ := 0
  scale_x : ℚ := 100
  scale_y : ℚ := 100
  rotation : ℚ := 0
  opacity : ℚ := 100
deriving DecidableEq

/-- One `setattr(self, prop, value)` step of `Transform.apply_keyframes`
(compositor.py lines 31-34); transform fields are floats and the
animated transform tracks store scalar values. -/
def applyProp (t : Transform) (km : KeyframeManager) (frame : Int)
    (prop : String) : Transform :=
  match km.get_value_at_frame prop frame with
  | some (.num v) =>
    if prop = "position_x" then { t with position_x := v }
    else if prop = "position_y" then { t with position_y := v }
    else if prop = "scale_x" then { t with scale_x := v }
    else if prop = "scale_y" then { t with scale_y := v }
    else if prop = "rotation" then { t with rotation := v }
    else if prop = "opacity" then { t with opacity := v }
    else t
  | _ => t

/-- `Transform.apply_keyframes` (compositor.py lines 28-34): query the
animation engine for each of the six properties at the given frame and
overwrite the field whenever the result is not none. -/
def Transform.apply_keyframes (t : Transform) (keyframes : KeyframeManager)
    (frame : Int) : Transform :=
  (["position_x", "position_y", "scale_x", "scale_y", "rotation",
    "opacity"]).foldl (fun tr p => applyProp tr keyframes frame p) t

/-- A timeline clip as `TimelineClip.__init__` populates it
(timeline_clip.py lines 23-67); every compositor-relevant attribute is
always present.  Note: the class defines `scale_x` and `scale_y` but no
attribute named `scale`. -/
structure TimelineClip where
  media_path : String := ""
  name : String := ""
  start_frame : Int := 0
  track : Int := 0
  duration : Int := 90
  media_type : String := "video"
  position_x : ℚ := 0
  position_y : ℚ := 0
  scale_x : ℚ := 1
  scale_y : ℚ := 1
  rotation : ℚ := 0
  opacity : ℚ := 100
  effects : List Effect := []
  keyframes : KeyframeManager := {}

/-- The transform resolution of `CompositeLayer.__init__` up to (not
including) the low-opacity clamp (compositor.py lines 43-61): keyframed
values are applied to a default `Transform` first; then the static clip
attributes are combined.  On a `TimelineClip` the guards
`hasattr(clip, 'keyframes')` (a `KeyframeManager` is always truthy),
`hasattr(clip, 'position_x')`, `'position_y'`, `'rotation'` and
`'opacity'` are always true, so position and rotation are added and
opacity is overwritten; `hasattr(clip, 'scale')` is always false
because the class defines `scale_x`/`scale_y`, never `scale`, so that
branch is dead and the animated scale survives. -/
def resolveTransformPreClamp (clip : TimelineClip) (relative_frame : Int) :
    Transform :=
  let t := Transform.apply_keyframes {} clip.keyframes relative_frame
  let t := { t with position_x := t.position_x + clip.position_x }
  let t := { t with position_y := t.position_y + clip.position_y }
  let t := { t with rotation := t.rotation + clip.rotation }
  { t with opacity := clip.opacity }

/-- A composite layer (compositor.py lines 36-65). -/
structure CompositeLayer where
  clip : TimelineClip
  frame : Int
  relative_frame : Int
  transform : Transform
  visible : Bool
  blend_mode : String

/-- `CompositeLayer.__init__` (compositor.py lines 39-65), including the
final guard: a resolved opacity below 50 is forced to 100. -/
def CompositeLayer.make (clip : TimelineClip) (frame : Int) : CompositeLayer :=
  let relative_frame := frame - clip.start_frame
  let t := resolveTransformPreClamp clip relative_frame
  let t := if t.opacity < 50 then { t with opacity := 100 } else t
  { clip := clip, frame := frame, relative_frame := relative_frame,
    transform := t, visible := true, blend_mode := "normal" }

/-- The compositing engine state (compositor.py lines 70-77); the frame
cache is never consulted by `composite_frame` and is omitted. -/
structure Compositor where
  width : Int := 1920
  height : Int := 1080

def toNumOpt : Option Val → Option ℚ
  | some (.num v) => some v
  | _ => none

/-- `Compositor._apply_color_correction` (compositor.py lines 261-296):
fetch the five color properties from the clip keyframes; if none is
animated return the image unchanged; otherwise apply brightness
(`convertScaleAbs` with alpha 1) and contrast (`convertScaleAbs` with
alpha contrast/100) - saturation, hue and gamma are fetched but never
applied. -/
def Compositor.apply_color_correction (image : Image) (clip : TimelineClip)
    (frame : Int) : Image :=
  let bri := toNumOpt (clip.keyframes.get_value_at_frame "brightness" frame)
  let con := toNumOpt (clip.keyframes.get_value_at_frame "contrast" frame)
  let sat := toNumOpt (clip.keyframes.get_value_at_frame "saturation" frame)
  let hue := toNumOpt (clip.keyframes.get_value_at_frame "hue" frame)
  let gam := toNumOpt (clip.keyframes.get_value_at_frame "gamma" frame)
  if bri = none ∧ con = none ∧ sat = none ∧ hue = none ∧ gam = none then image
  else
    let result := image
    let result :=
      match bri with
      | some brightness => convertScaleAbs result 1 brightness
      | none => result
    match con with
    | some contrast => convertScaleAbs result (contrast / 100) 0
    | none => result

/-- Python `int(...)` on a float: truncation toward zero. -/
def truncInt (q : ℚ) : Int := if 0 ≤ q then Int.floor q else Int.ceil q

/-- The offset computation of `Compositor._overlay_image` (compositor.py
lines 326-332): centered placement shifted by the transform position,
then clamped into the frame.  `Int.fdiv` is Python floor division. -/
def overlayOffsets (base_w base_h overlay_w overlay_h : Int) (t : Transform) :
    Int × Int :=
  let x_offset := Int.fdiv (base_w - overlay_w) 2 + truncInt t.position_x
  let y_offset := Int.fdiv (base_h - overlay_h) 2 + truncInt t.position_y
  (max 0 (min x_offset (base_w - overlay_w)),
   max 0 (min y_offset (base_h - overlay_h)))

/-- `Compositor._overlay_image` (compositor.py lines 315-357): place the
overlay at the clamped offsets; replace the region outright at opacity
1, otherwise alpha-blend; pixels outside the region keep the base. -/
def Compositor.overlay_image (base overlay : Image) (t : Transform)
    (opacity : ℚ) : Image :=
  let off := overlayOffsets base.width base.height overlay.width overlay.height t
  let end_x := min (off.1 + overlay.width) base.width
  let end_y := min (off.2 + overlay.height) base.height
  if off.1 < end_x ∧ off.2 < end_y then
    { base with pix := fun y x =>
        (if off.2 ≤ y ∧ y < end_y ∧ off.1 ≤ x ∧ x < end_x then
          if opacity = 1 then overlay.pix (y - off.2) (x - off.1)
          else
            RGB.map2 (fun bb oo => astypeU8 (bb * (1 - opacity) + oo * opacity))
              (base.pix y x) (overlay.pix (y - off.2) (x - off.1))
        else base.pix y x) }
  else base

/-- `Compositor._apply_transform` (compositor.py lines 359-399):
rotation warp, then scaling with centered placement on a black canvas
of the original size, then translation; the cv2 leaf operations are the
oracles. -/
def Compositor.apply_transform (ext : Ext) (image : Image) (t : Transform) :
    Image :=
  let h := image.height
  let w := image.width
  let scale_x := t.scale_x / 100
  let scale_y := t.scale_y / 100
  let image1 := if t.rotation ≠ 0 then ext.warpRotate image t.rotation else image
  let image2 :=
    if scale_x ≠ 1 ∨ scale_y ≠ 1 then
      let new_w := truncInt ((w : ℚ) * scale_x)
      let new_h := truncInt ((h : ℚ) * scale_y)
      let resized := ext.resizeTo image1 new_w new_h
      let y_offset := Int.fdiv (h - new_h) 2
      let x_offset := Int.fdiv (w - new_w) 2
      if 0 ≤ y_offset ∧ 0 ≤ x_offset then
        { width := w, height := h, pix := fun y x =>
            if y_offset ≤ y ∧ y < y_offset + new_h ∧ x_offset ≤ x ∧
                x < x_offset + new_w then
              resized.pix (y - y_offset) (x - x_offset)
            else ⟨0, 0, 0⟩ }
      else { width := w, height := h, pix := fun _ _ => ⟨0, 0, 0⟩ }
    else image1
  if t.position_x ≠ 0 ∨ t.position_y ≠ 0 then
    ext.translateBy image2 t.position_x t.position_y
  else image2

/-- `Compositor._blend_images` (compositor.py lines 401-427): resize on
shape mismatch, clamp opacity into [0,1], then copy or manual alpha
blend (the string blend mode is accepted and ignored, as in the
source). -/
def Compositor.blend_images (ext : Ext) (base overlay : Image)
    (blend_mode : String) (opacity : ℚ) : Image :=
  let overlay :=
    if overlay.width = base.width ∧ overlay.height = base.height then overlay
    else ext.resizeTo overlay base.width base.height
  let opacity := max 0 (min 1 opacity)
  if opacity = 0 then base
  else if opacity = 1 then overlay
  else
    { base with pix := fun y x =>
        (RGB.map2 (fun bb oo => astypeU8 (bb * (1 - opacity) + oo * opacity))
          (base.pix y x) (overlay.pix y x)) }

/-- `Compositor._composite_layer` (compositor.py lines 298-313):
image-kind clips go through the centered overlay; everything else is
transformed, resized to the frame if needed, and alpha-blended
full-frame. -/
def Compositor.composite_layer (ext : Ext) (base layerImg : Image)
    (transform : Transform) (blend_mode : String) (clip : TimelineClip) :
    Image :=
  let opacity := transform.opacity / 100
  if clip.media_type = "image" then
    Compositor.overlay_image base layerImg transform opacity
  else
    let transformed := Compositor.apply_transform ext layerImg transform
    let transformed :=
      if transformed.width = base.width ∧ transformed.height = base.height then
        transformed
      else ext.resizeTo transformed base.width base.height
    Compositor.blend_images ext base transformed blend_mode opacity

/-- `Compositor._render_layer` (compositor.py lines 129-159): fetch the
raw content by media kind, then run the effect chain (only when the
effect list is non-empty - an empty list is falsy), then the keyframed
color correction. -/
def Compositor.render_layer (comp : Compositor) (ext : Ext)
    (layer : CompositeLayer) (rng : Rng) : Option Image × Rng :=
  let clip := layer.clip
  let fetched : Option Image :=
    if clip.media_type = "image" then
      ext.loadImage comp.width comp.height clip.media_path
    else if clip.media_type = "video" then
      ext.loadVideoFrame comp.width comp.height clip.media_path
        layer.relative_frame
    else if clip.media_type = "audio" then
      some (ext.audioViz comp.width comp.height clip.media_path
        layer.relative_frame)
    else none
  match fetched with
  | none => (none, rng)
  | some image =>
    let er :=
      if clip.effects.isEmpty then (image, rng)
      else EffectEngine.apply_effects ext image clip.effects rng
    (some (Compositor.apply_color_correction er.1 clip layer.relative_frame),
     er.2)

/-- The active-clip selection of `composite_frame` (compositor.py lines
86-90): a clip is kept iff `start_frame <= frame < start_frame +
duration`. -/
def activeClips (clips : List TimelineClip) (frame : Int) : List TimelineClip :=
  clips.filter (fun c =>
    decide (c.start_frame ≤ frame) && decide (frame < c.start_frame + c.duration))

/-- Stable insertion for the descending-track sort. -/
def ordInsertTrackDesc (a : TimelineClip) :
    List TimelineClip → List TimelineClip
  | [] => [a]
  | b :: l => if b.track ≤ a.track then a :: b :: l else b :: ordInsertTrackDesc a l

/-- The stable `active_clips.sort(key=lambda c: c.track, reverse=True)`
(compositor.py line 96): higher tracks first, lower tracks drawn last. -/
def sortByTrackDesc : List TimelineClip → List TimelineClip
  | [] => []
  | b :: l => ordInsertTrackDesc b (sortByTrackDesc l)

/-- `np.full((h, w, 3), background_color)`. -/
def fullImage (w h : Int) (bg : RGB) : Image :=
  { width := w, height := h, pix := fun _ _ => bg }

/-- The per-clip loop of `composite_frame` (compositor.py lines
106-124): build the layer, skip it when invisible or before the clip
start or when rendering fails, otherwise composite it onto the
accumulator. -/
def compositeGo (comp : Compositor) (ext : Ext) (frame : Int) :
    List TimelineClip → Image × Rng → Image × Rng
  | [], acc => acc
  | clip :: rest, (result, rng) =>
    let layer := CompositeLayer.make clip frame
    if layer.visible = true ∧ 0 ≤ layer.relative_frame then
      match Compositor.render_layer comp ext layer rng with
      | (some layer_image, rng2) =>
        compositeGo comp ext frame rest
          (Compositor.composite_layer ext result layer_image layer.transform
            layer.blend_mode clip, rng2)
      | (none, rng2) => compositeGo comp ext frame rest (result, rng2)
    else compositeGo comp ext frame rest (result, rng)

/-- `Compositor.composite_frame` (compositor.py lines 79-127): fill the
background, select active clips, sort descending by track, composite in
that order. -/
def Compositor.composite_frame (comp : Compositor) (ext : Ext)
    (clips : List TimelineClip) (frame : Int) (background_color : RGB)
    (rng : Rng) : Image × Rng :=
  let result := fullImage comp.width comp.height background_color
  let active_clips := activeClips clips frame
  if active_clips.isEmpty then (result, rng)
  else compositeGo comp ext frame (sortByTrackDesc active_clips) (result, rng)

/-- A clip whose animated opacity (100) differs from its static opacity
(80); used to refute the animated-wins rule for opacity. -/
def opacityAnimTrack : KeyframeTrack :=
  { property_name := "opacity", keyframes := [{ frame := 0, value := .num 100 }] }

def clipC1 : TimelineClip :=
  { media_path := "a.png", media_type := "image", opacity := 80,
    keyframes := { tracks := [("opacity", opacityAnimTrack)] } }

/-- A clip whose resolved opacity (30) falls under the low-opacity guard. -/
def clipC5 : TimelineClip := { media_path := "a.png", media_type := "image", opacity := 30 }

/-! ## Transform resolution (Claims C1 and C5) -/

/-- The animated value of a property at a frame when the Animation
Engine returns a scalar, else the given fallback. -/
def animatedOr (km : KeyframeManager) (frame : Int) (prop : String) (d : ℚ) : ℚ :=
  match km.get_value_at_frame prop frame with
  | some (.num v) => v
  | _ => d

theorem applyProp_px (t : Transform) (km : KeyframeManager) (frame : Int) :
    applyProp t km frame "position_x" =
      { t with position_x := animatedOr km frame "position_x" t.position_x } := by
  rcases h : km.get_value_at_frame "position_x" frame with _ | v
  · simp [applyProp, animatedOr, h]
  · rcases v with q | l | st <;> simp [applyProp, animatedOr, h]

theorem applyProp_py (t : Transform) (km : KeyframeManager) (frame : Int) :
    applyProp t km frame "position_y" =
      { t with position_y := animatedOr km frame "position_y" t.position_y } := by
  rcases h : km.get_value_at_frame "position_y" frame with _ | v
  · simp [applyProp, animatedOr, h]
  · rcases v with q | l | st <;> simp [applyProp, animatedOr, h]

theorem applyProp_sx (t : Transform) (km : KeyframeManager) (frame : Int) :
    applyProp t km frame "scale_x" =
      { t with scale_x := animatedOr km frame "scale_x" t.scale_x } := by
  rcases h : km.get_value_at_frame "scale_x" frame with _ | v
  · simp [applyProp, animatedOr, h]
  · rcases v with q | l | st <;> simp [applyProp, animatedOr, h]

theorem applyProp_sy (t : Transform) (km : KeyframeManager) (frame : Int) :
    applyProp t km frame "scale_y" =
      { t with scale_y := animatedOr km frame "scale_y" t.scale_y } := by
  rcases h : km.get_value_at_frame "scale_y" frame with _ | v
  · simp [applyProp, animatedOr, h]
  · rcases v with q | l | st <;> simp [applyProp, animatedOr, h]

theorem applyProp_rot (t : Transform) (km : KeyframeManager) (frame : Int) :
    applyProp t km frame "rotation" =
      { t with rotation := animatedOr km frame "rotation" t.rotation } := by
  rcases h : km.get_value_at_frame "rotation" frame with _ | v
  · simp [applyProp, animatedOr, h]
  · rcases v with q | l | st <;> simp [applyProp, animatedOr, h]

theorem applyProp_op (t : Transform) (km : KeyframeManager) (frame : Int) :
    applyProp t km frame "opacity" =
      { t with opacity := animatedOr km frame "opacity" t.opacity } := by
  rcases h : km.get_value_at_frame "opacity" frame with _ | v
  · simp [applyProp, animatedOr, h]
  · rcases v with q | l | st <;> simp [applyProp, animatedOr, h]

theorem apply_keyframes_eq (km : KeyframeManager) (frame : Int) (t : Transform) :
    Transform.apply_keyframes t km frame =
      { position_x := animatedOr km frame "position_x" t.position_x
        position_y := animatedOr km frame "position_y" t.position_y
        scale_x := animatedOr km frame "scale_x" t.scale_x
        scale_y := animatedOr km frame "scale_y" t.scale_y
        rotation := animatedOr km frame "rotation" t.rotation
        opacity := animatedOr km frame "opacity" t.opacity } := by
  show List.foldl _ t _ = _
  simp only [List.foldl_cons, List.foldl_nil, applyProp_px, applyProp_py,
    applyProp_sx, applyProp_sy, applyProp_rot, applyProp_op]

/-- Claim C1 counterexample: this clip carries an animated opacity that
evaluates to 100 at the clip-relative frame 0, yet the resolved
transform keeps the static opacity 80.  The animated value does not
override the static field, because `CompositeLayer.__init__` applies
keyframes to a fresh default Transform first and then overwrites the
resolved opacity with `clip.opacity`. -/
theorem animated_does_not_override_static :
    clipC1.keyframes.get_value_at_frame "opacity" 0 = some (Val.num 100) ∧
    (CompositeLayer.make clipC1 0).transform.opacity = 80 ∧ (80 : ℚ) ≠ 100 := by
  refine ⟨rfl, rfl, by norm_num⟩

/-- Claim C1 amended: the compositor starts from the DEFAULT transform,
lets animated values replace the defaults for all six properties, and
then combines the clip's static fields as follows - static
position_x/position_y and rotation are ADDED to the animated values,
static opacity OVERWRITES the animated opacity, and the animated
scale_x/scale_y survive untouched (the code looks for a static
attribute named `scale` which `TimelineClip` never defines, so the clip
static scale is ignored); finally a resolved opacity below 50 is forced
to 100. -/
theorem transform_resolution_characterization (clip : TimelineClip) (frame : Int) :
    (CompositeLayer.make clip frame).transform.position_x =
      animatedOr clip.keyframes (frame - clip.start_frame) "position_x" 0 +
        clip.position_x ∧
    (CompositeLayer.make clip frame).transform.position_y =
      animatedOr clip.keyframes (frame - clip.start_frame) "position_y" 0 +
        clip.position_y ∧
    (CompositeLayer.make clip frame).transform.scale_x =
      animatedOr clip.keyframes (frame - clip.start_frame) "scale_x" 100 ∧
    (CompositeLayer.make clip frame).transform.scale_y =
      animatedOr clip.keyframes (frame - clip.start_frame) "scale_y" 100 ∧
    (CompositeLayer.make clip frame).transform.rotation =
      animatedOr clip.keyframes (frame - clip.start_frame) "rotation" 0 +
        clip.rotation ∧
    (CompositeLayer.make clip frame).transform.opacity =
      (if clip.opacity < 50 then 100 else clip.opacity) := by
  have hres : resolveTransformPreClamp clip (frame - clip.start_frame) =
      { position_x := animatedOr clip.keyframes (frame - clip.start_frame)
          "position_x" 0 + clip.position_x
        position_y := animatedOr clip.keyframes (frame - clip.start_frame)
          "position_y" 0 + clip.position_y
        scale_x := animatedOr clip.keyframes (frame - clip.start_frame)
          "scale_x" 100
        scale_y := animatedOr clip.keyframes (frame - clip.start_frame)
          "scale_y" 100
        rotation := animatedOr clip.keyframes (frame - clip.start_frame)
          "rotation" 0 + clip.rotation
        opacity := clip.opacity } := by
    unfold resolveTransformPreClamp
    rw [show ({} : Transform) =
      { position_x := 0, position_y := 0, scale_x := 100, scale_y := 100,
        rotation := 0, opacity := 100 } from rfl, apply_keyframes_eq]
  simp only [CompositeLayer.make]
  rw [hres]
  by_cases hop : clip.opacity < 50 <;>
    simp [hop]

/-- Claim C5: during transform resolution for a clip layer, a resolved
opacity strictly below 50 is forced to exactly 100 (fully opaque), and
a resolved opacity of 50 or more is kept unchanged. -/
theorem opacity_guard (clip : TimelineClip) (frame : Int) :
    ((resolveTransformPreClamp clip (frame - clip.start_frame)).opacity < 50 →
      (CompositeLayer.make clip frame).transform.opacity = 100) ∧
    (50 ≤ (resolveTransformPreClamp clip (frame - clip.start_frame)).opacity →
      (CompositeLayer.make clip frame).transform.opacity =
        (resolveTransformPreClamp clip (frame - clip.start_frame)).opacity) := by
  constructor
  · intro h
    simp [CompositeLayer.make, h]
  · intro h
    simp [CompositeLayer.make, not_lt.mpr h]

/-- Witness for the claim-C5 theorem: a clip with static opacity 30 and
no animation resolves to opacity 30 before the guard, which forces the
layer opacity to 100. -/
theorem opacity_guard_witness :
    (resolveTransformPreClamp clipC5 (0 - clipC5.start_frame)).opacity < 50 ∧
    (CompositeLayer.make clipC5 0).transform.opacity = 100 :=
  ⟨by decide, (opacity_guard clipC5 0).1 (by decide)⟩

/-! ## Centered-overlay clamping (Claim C10) -/

/-- Claim C10 (implicit): for an overlay no larger than the frame, the
offsets computed by `_overlay_image` are clamped so the overlay
rectangle always lies fully inside the output frame
(0 <= offset and offset + overlay size <= frame size); an unclamped
offset at or beyond the right/bottom edge is pinned to
`frame size - overlay size`, one at or below 0 is pinned to 0 (so
arbitrarily large positive or negative positions pin the image to the
frame edge); and the overlay pass leaves every pixel outside the frame
bounds unchanged. -/
theorem overlay_offsets_clamped (base overlay : Image) (t : Transform)
    (opacity : ℚ)
    (hw : 0 < overlay.width) (hw2 : overlay.width ≤ base.width)
    (hh : 0 < overlay.height) (hh2 : overlay.height ≤ base.height) :
    (0 ≤ (overlayOffsets base.width base.height overlay.width overlay.height t).1 ∧
      (overlayOffsets base.width base.height overlay.width overlay.height t).1 +
        overlay.width ≤ base.width ∧
      0 ≤ (overlayOffsets base.width base.height overlay.width overlay.height t).2 ∧
      (overlayOffsets base.width base.height overlay.width overlay.height t).2 +
        overlay.height ≤ base.height) ∧
    (base.width - overlay.width ≤
        Int.fdiv (base.width - overlay.width) 2 + truncInt t.position_x →
      (overlayOffsets base.width base.height overlay.width overlay.height t).1 =
        base.width - overlay.width) ∧
    (Int.fdiv (base.width - overlay.width) 2 + truncInt t.position_x ≤ 0 →
      (overlayOffsets base.width base.height overlay.width overlay.height t).1 = 0) ∧
    (∀ y x, y < 0 ∨ base.height ≤ y ∨ x < 0 ∨ base.width ≤ x →
      (Compositor.overlay_image base overlay t opacity).pix y x = base.pix y x) := by
  simp only [overlayOffsets]
  refine ⟨⟨?_, ?_, ?_, ?_⟩, ?_, ?_, ?_⟩
  · omega
  · omega
  · omega
  · omega
  · intro h
    omega
  · intro h
    omega
  · intro y x hout
    simp only [Compositor.overlay_image, overlayOffsets]
    split
    · dsimp only
      rw [if_neg]
      rintro ⟨h1, h2, h3, h4⟩
      omega
    · rfl

def baseC10 : Image := { width := 4, height := 4, pix := fun _ _ => ⟨0, 0, 0⟩ }

def overlC10 : Image := { width := 2, height := 2, pix := fun _ _ => ⟨255, 255, 255⟩ }

def tC10 : Transform := { position_x := 1000 }

/-- Witness for the claim-C10 theorem: a 2x2 overlay on a 4x4 frame
with position_x 1000 is pinned to the right edge (offset 2 = 4 - 2),
stays fully inside the frame, and pixels outside the frame are
untouched. -/
theorem overlay_offsets_clamped_witness :
    (0 ≤ (overlayOffsets baseC10.width baseC10.height overlC10.width
        overlC10.height tC10).1 ∧
      (overlayOffsets baseC10.width baseC10.height overlC10.width
        overlC10.height tC10).1 + overlC10.width ≤ baseC10.width ∧
      0 ≤ (overlayOffsets baseC10.width baseC10.height overlC10.width
        overlC10.height tC10).2 ∧
      (overlayOffsets baseC10.width baseC10.height overlC10.width
        overlC10.height tC10).2 + overlC10.height ≤ baseC10.height) ∧
    (overlayOffsets baseC10.width baseC10.height overlC10.width
      overlC10.height tC10).1 = baseC10.width - overlC10.width ∧
    (Compositor.overlay_image baseC10 overlC10 tC10 1).pix (-1) 0 =
      baseC10.pix (-1) 0 := by
  have h := overlay_offsets_clamped baseC10 overlC10 tC10 1
    (by decide) (by decide) (by decide) (by decide)
  exact ⟨h.1, h.2.1 (by decide), h.2.2.2 (-1) 0 (Or.inl (by decide))⟩

/-! ## Draw order (Claim C4) -/

theorem apply_keyframes_empty (t : Transform) (f : Int) :
    Transform.apply_keyframes t {} f = t := rfl

theorem get_value_empty (p : String) (f : Int) :
    ({} : KeyframeManager).get_value_at_frame p f = none := rfl

theorem color_correction_no_keyframes (image : Image) (clip : TimelineClip)
    (f : Int) (hk : clip.keyframes = {}) :
    Compositor.apply_color_correction image clip f = image := by
  simp [Compositor.apply_color_correction, hk, get_value_empty, toNumOpt]

theorem make_clip (c : TimelineClip) (f : Int) :
    (CompositeLayer.make c f).clip = c := rfl

theorem make_visible (c : TimelineClip) (f : Int) :
    (CompositeLayer.make c f).visible = true := rfl

theorem make_relative (c : TimelineClip) (f : Int) :
    (CompositeLayer.make c f).relative_frame = f - c.start_frame := rfl

theorem resolve_opacity_no_keyframes (clip : TimelineClip) (frame : Int)
    (hk : clip.keyframes = {}) :
    (resolveTransformPreClamp clip (frame - clip.start_frame)).opacity =
      clip.opacity := by
  unfold resolveTransformPreClamp
  rw [hk, apply_keyframes_empty]

theorem make_transform_no_keyframes (clip : TimelineClip) (frame : Int)
    (hk : clip.keyframes = {}) (hop : clip.opacity = 100) :
    (CompositeLayer.make clip frame).transform.opacity = 100 := by
  have h2 : ¬ (resolveTransformPreClamp clip (frame - clip.start_frame)).opacity < 50 := by
    rw [resolve_opacity_no_keyframes clip frame hk, hop]
    norm_num
  simp only [CompositeLayer.make]
  rw [if_neg h2, resolve_opacity_no_keyframes clip frame hk, hop]

theorem render_layer_image_eq (comp : Compositor) (ext : Ext)
    (layer : CompositeLayer) (rng : Rng) (img : Image)
    (hm : layer.clip.media_type = "image")
    (himg : ext.loadImage comp.width comp.height layer.clip.media_path = some img)
    (heff : layer.clip.effects = [])
    (hk : layer.clip.keyframes = {}) :
    Compositor.render_layer comp ext layer rng = (some img, rng) := by
  simp [Compositor.render_layer, hm, himg, heff,
    color_correction_no_keyframes img layer.clip layer.relative_frame hk]

theorem render_layer_image_some (comp : Compositor) (ext : Ext)
    (layer : CompositeLayer) (rng : Rng) (img : Image)
    (hm : layer.clip.media_type = "image")
    (himg : ext.loadImage comp.width comp.height layer.clip.media_path = some img) :
    ∃ res rng2, Compositor.render_layer comp ext layer rng = (some res, rng2) := by
  by_cases he : layer.clip.effects.isEmpty <;>
    simp [Compositor.render_layer, hm, himg, he]

theorem overlay_image_dims (base overlay : Image) (t : Transform) (op : ℚ) :
    (Compositor.overlay_image base overlay t op).width = base.width ∧
    (Compositor.overlay_image base overlay t op).height = base.height := by
  simp only [Compositor.overlay_image]
  split <;> simp

theorem composite_layer_image_eq (ext : Ext) (base layerImg : Image)
    (tr : Transform) (bm : String) (clip : TimelineClip)
    (hm : clip.media_type = "image") :
    Compositor.composite_layer ext base layerImg tr bm clip =
      Compositor.overlay_image base layerImg tr (tr.opacity / 100) := by
  simp [Compositor.composite_layer, hm]

theorem composite_layer_image_dims (ext : Ext) (base layerImg : Image)
    (tr : Transform) (bm : String) (clip : TimelineClip)
    (hm : clip.media_type = "image") :
    (Compositor.composite_layer ext base layerImg tr bm clip).width = base.width ∧
    (Compositor.composite_layer ext base layerImg tr bm clip).height = base.height := by
  rw [composite_layer_image_eq ext base layerImg tr bm clip hm]
  exact overlay_image_dims base layerImg tr (tr.opacity / 100)

theorem overlay_image_full (base overlay : Image) (t : Transform)
    (hw : overlay.width = base.width) (hh : overlay.height = base.height)
    (hw0 : 0 < base.width) (hh0 : 0 < base.height) :
    ∀ y x, 0 ≤ y → y < base.height → 0 ≤ x → x < base.width →
      (Compositor.overlay_image base overlay t 1).pix y x = overlay.pix y x := by
  intro y x hy1 hy2 hx1 hx2
  have hoff1 : (overlayOffsets base.width base.height overlay.width
      overlay.height t).1 = 0 := by
    simp only [overlayOffsets, hw, hh]
    omega
  have hoff2 : (overlayOffsets base.width base.height overlay.width
      overlay.height t).2 = 0 := by
    simp only [overlayOffsets, hw, hh]
    omega
  simp only [Compositor.overlay_image, hoff1, hoff2]
  simp only [zero_add, hw, hh, min_self]
  rw [if_pos ⟨hw0, hh0⟩]
  dsimp only
  rw [if_pos ⟨hy1, hy2, hx1, hx2⟩]
  simp

theorem activeClips_two (a b : TimelineClip) (frame : Int)
    (ha1 : a.start_frame ≤ frame) (ha2 : frame < a.start_frame + a.duration)
    (hb1 : b.start_frame ≤ frame) (hb2 : frame < b.start_frame + b.duration) :
    activeClips [a, b] frame = [a, b] := by
  simp [activeClips, ha1, ha2, hb1, hb2]

theorem sortByTrackDesc_two (c0 c1 : TimelineClip)
    (h0 : c0.track = 0) (h1 : c1.track = 1) :
    sortByTrackDesc [c0, c1] = [c1, c0] ∧ sortByTrackDesc [c1, c0] = [c1, c0] := by
  constructor <;> simp [sortByTrackDesc, ordInsertTrackDesc, h0, h1]

/-- Claim C4: `composite_frame` selects exactly the clips whose frame
interval contains the requested frame, and blends them in descending
track order, so that for two overlapping full-opacity image clips on
tracks 0 and 1 whose rendered content covers the whole frame, the
output equals the track-0 clip's rendered content at every frame pixel
(track 0 is drawn last, on top). -/
theorem draw_order_track0_on_top (comp : Compositor) (ext : Ext)
    (clips : List TimelineClip) (c0 c1 : TimelineClip) (img0 img1 : Image)
    (frame : Int) (bg : RGB) (rng : Rng)
    (hcl : clips = [c0, c1] ∨ clips = [c1, c0])
    (ht0 : c0.track = 0) (ht1 : c1.track = 1)
    (ha0 : c0.start_frame ≤ frame) (ha0d : frame < c0.start_frame + c0.duration)
    (ha1 : c1.start_frame ≤ frame) (ha1d : frame < c1.start_frame + c1.duration)
    (hm0 : c0.media_type = "image") (hm1 : c1.media_type = "image")
    (he0 : c0.effects = []) (hk0 : c0.keyframes = {})
    (hop0 : c0.opacity = 100)
    (hi0 : ext.loadImage comp.width comp.height c0.media_path = some img0)
    (hi1 : ext.loadImage comp.width comp.height c1.media_path = some img1)
    (hw0 : img0.width = comp.width) (hh0 : img0.height = comp.height)
    (hcw : 0 < comp.width) (hch : 0 < comp.height) :
    (∀ (cs : List TimelineClip) (f : Int) (c : TimelineClip),
      c ∈ activeClips cs f ↔
        c ∈ cs ∧ c.start_frame ≤ f ∧ f < c.start_frame + c.duration) ∧
    (∀ y x, 0 ≤ y → y < comp.height → 0 ≤ x → x < comp.width →
      (comp.composite_frame ext clips frame bg rng).1.pix y x = img0.pix y x) := by
  constructor
  · intro cs f c
    simp [activeClips, List.mem_filter]
  intro y x hy1 hy2 hx1 hx2
  have hAS : activeClips clips frame = clips ∧ clips.isEmpty = false ∧
      sortByTrackDesc clips = [c1, c0] := by
    rcases hcl with rfl | rfl
    · exact ⟨activeClips_two c0 c1 frame ha0 ha0d ha1 ha1d, rfl,
        (sortByTrackDesc_two c0 c1 ht0 ht1).1⟩
    · exact ⟨activeClips_two c1 c0 frame ha1 ha1d ha0 ha0d, rfl,
        (sortByTrackDesc_two c0 c1 ht0 ht1).2⟩
  have hcf : comp.composite_frame ext clips frame bg rng =
      compositeGo comp ext frame [c1, c0]
        (fullImage comp.width comp.height bg, rng) := by
    simp only [Compositor.composite_frame, hAS.1, hAS.2.1, hAS.2.2]
    rw [if_neg]
    simp [hAS.2.1]
  -- step for c1
  obtain ⟨res1, rng2, hr1⟩ := render_layer_image_some comp ext
    (CompositeLayer.make c1 frame) rng img1 (by rw [make_clip]; exact hm1)
    (by rw [make_clip]; exact hi1)
  have hstep1 : compositeGo comp ext frame [c1, c0]
      (fullImage comp.width comp.height bg, rng) =
      compositeGo comp ext frame [c0]
        (Compositor.composite_layer ext (fullImage comp.width comp.height bg)
          res1 (CompositeLayer.make c1 frame).transform
          (CompositeLayer.make c1 frame).blend_mode c1, rng2) := by
    simp only [compositeGo]
    rw [if_pos ⟨make_visible c1 frame, by rw [make_relative]; omega⟩, hr1]
  -- step for c0
  have hr0 : Compositor.render_layer comp ext (CompositeLayer.make c0 frame) rng2 =
      (some img0, rng2) :=
    render_layer_image_eq comp ext (CompositeLayer.make c0 frame) rng2 img0
      (by rw [make_clip]; exact hm0) (by rw [make_clip]; exact hi0)
      (by rw [make_clip]; exact he0) (by rw [make_clip]; exact hk0)
  set mid := Compositor.composite_layer ext (fullImage comp.width comp.height bg)
    res1 (CompositeLayer.make c1 frame).transform
    (CompositeLayer.make c1 frame).blend_mode c1 with hmid
  have hstep0 : compositeGo comp ext frame [c0] (mid, rng2) =
      (Compositor.composite_layer ext mid img0
        (CompositeLayer.make c0 frame).transform
        (CompositeLayer.make c0 frame).blend_mode c0, rng2) := by
    simp only [compositeGo]
    rw [if_pos ⟨make_visible c0 frame, by rw [make_relative]; omega⟩, hr0]
  have hmidw : mid.width = comp.width := by
    rw [hmid]
    exact (composite_layer_image_dims ext _ res1 _ _ c1 hm1).1
  have hmidh : mid.height = comp.height := by
    rw [hmid]
    exact (composite_layer_image_dims ext _ res1 _ _ c1 hm1).2
  have hopac : (CompositeLayer.make c0 frame).transform.opacity / 100 = 1 := by
    rw [make_transform_no_keyframes c0 frame hk0 hop0]
    norm_num
  have hfin : Compositor.composite_layer ext mid img0
      (CompositeLayer.make c0 frame).transform
      (CompositeLayer.make c0 frame).blend_mode c0 =
      Compositor.overlay_image mid img0
        (CompositeLayer.make c0 frame).transform 1 := by
    rw [composite_layer_image_eq ext mid img0 _ _ c0 hm0, hopac]
  rw [hcf, hstep1, hstep0, hfin]
  exact overlay_image_full mid img0 _
    (by rw [hw0, hmidw]) (by rw [hh0, hmidh])
    (by rw [hmidw]; exact hcw) (by rw [hmidh]; exact hch)
    y x hy1 (by rw [hmidh]; exact hy2) hx1 (by rw [hmidw]; exact hx2)

def imgW0 : Image := { width := 2, height := 2, pix := fun _ _ => ⟨10, 20, 30⟩ }

def imgW1 : Image := { width := 2, height := 2, pix := fun _ _ => ⟨1, 2, 3⟩ }

def extW : Ext :=
  { loadImage := fun _ _ p => if p = "a.png" then some imgW0 else some imgW1
    loadVideoFrame := fun _ _ _ _ => none
    audioViz := fun w h _ _ => { width := w, height := h, pix := fun _ _ => ⟨0, 0, 0⟩ }
    resizeTo := fun i _ _ => i
    warpRotate := fun i _ => i
    translateBy := fun i _ _ => i
    blendNonNormal := fun _ _ o => o }

def compW : Compositor := { width := 2, height := 2 }

def clipW0 : TimelineClip :=
  { media_path := "a.png", media_type := "image", track := 0,
    start_frame := 0, duration := 90, opacity := 100 }

def clipW1 : TimelineClip :=
  { media_path := "b.png", media_type := "image", track := 1,
    start_frame := 0, duration := 90, opacity := 100 }

def rngW : Rng := { stream := fun _ => 0, cursor := 0 }

/-- Witness for the claim-C4 theorem: two concrete full-opacity
full-frame image clips on tracks 0 and 1; the composited pixel equals
the track-0 content. -/
theorem draw_order_track0_on_top_witness :
    (compW.composite_frame extW [clipW0, clipW1] 0 ⟨0, 0, 0⟩ rngW).1.pix 0 0 =
      imgW0.pix 0 0 := by
  have h := draw_order_track0_on_top compW extW [clipW0, clipW1] clipW0 clipW1
    imgW0 imgW1 0 ⟨0, 0, 0⟩ rngW (Or.inl rfl) rfl rfl (by decide) (by decide)
    (by decide) (by decide) rfl rfl rfl rfl rfl rfl rfl rfl rfl
    (by decide) (by decide)
  exact h.2 0 0 (by decide) (by decide) (by decide) (by decide)

/-! ## Determinism of compositing (Claim C9) -/

/-- An effect whose transform never draws from the random generator. -/
def Effect.deterministicKernel (e : Effect) : Prop :=
  ∀ amount, e.kernel ≠ EffectKernel.noise amount

/-- The generator-free run of the effect chain, used to state that a
chain of deterministic effects neither reads nor advances the
generator. -/
def applyEffectsPure (ext : Ext) : List Effect → Image → Image
  | [], img => img
  | e :: rest, img =>
    if e.enabled = false then applyEffectsPure ext rest img
    else
      match e.kernel with
      | .noise _ => applyEffectsPure ext rest img
      | .deterministic f =>
        let processed :=
          if e.opacity < 100 then
            addWeighted img (1 - e.opacity / 100) (f img) (e.opacity / 100)
          else f img
        applyEffectsPure ext rest (applyBlendMode ext img processed e.blend_mode)

theorem applyEffectsGo_det (ext : Ext) :
    ∀ (effects : List Effect), (∀ e ∈ effects, e.deterministicKernel) →
      ∀ (img : Image) (rng : Rng),
        applyEffectsGo ext effects (img, rng) =
          (applyEffectsPure ext effects img, rng) := by
  intro effects
  induction effects with
  | nil => intro _ img rng; rfl
  | cons e rest ih =>
    intro h img rng
    have he := h e (List.mem_cons_self e rest)
    have hrest := fun e2 he2 => h e2 (List.mem_cons_of_mem e he2)
    by_cases hen : e.enabled = false
    · simp only [applyEffectsGo, applyEffectsPure, if_pos hen]
      exact ih hrest img rng
    · cases hk : e.kernel with
      | noise a => exact absurd hk (he a)
      | deterministic f =>
        simp only [applyEffectsGo, applyEffectsPure, if_neg hen,
          applyEffectKernel, hk]
        exact ih hrest _ rng

/-- The generator-free layer rendering. -/
def renderLayerPure (comp : Compositor) (ext : Ext) (layer : CompositeLayer) :
    Option Image :=
  let clip := layer.clip
  let fetched : Option Image :=
    if clip.media_type = "image" then
      ext.loadImage comp.width comp.height clip.media_path
    else if clip.media_type = "video" then
      ext.loadVideoFrame comp.width comp.height clip.media_path
        layer.relative_frame
    else if clip.media_type = "audio" then
      some (ext.audioViz comp.width comp.height clip.media_path
        layer.relative_frame)
    else none
  match fetched with
  | none => none
  | some image =>
    let image2 :=
      if clip.effects.isEmpty then image
      else applyEffectsPure ext clip.effects image
    some (Compositor.apply_color_correction image2 clip layer.relative_frame)

theorem render_layer_det (comp : Compositor) (ext : Ext) (layer : CompositeLayer)
    (h : ∀ e ∈ layer.clip.effects, e.deterministicKernel) (rng : Rng) :
    Compositor.render_layer comp ext layer rng =
      (renderLayerPure comp ext layer, rng) := by
  simp only [Compositor.render_layer, renderLayerPure]
  cases hfetch : (if layer.clip.media_type = "image" then
      ext.loadImage comp.width comp.height layer.clip.media_path
    else if layer.clip.media_type = "video" then
      ext.loadVideoFrame comp.width comp.height layer.clip.media_path
        layer.relative_frame
    else if layer.clip.media_type = "audio" then
      some (ext.audioViz comp.width comp.height layer.clip.media_path
        layer.relative_frame)
    else none) with
  | none => rfl
  | some image =>
    by_cases he : layer.clip.effects.isEmpty
    · simp [he]
    · simp [he, EffectEngine.apply_effects,
        applyEffectsGo_det ext layer.clip.effects h image rng]

theorem compositeGo_det (comp : Compositor) (ext : Ext) (frame : Int) :
    ∀ (cs : List TimelineClip),
      (∀ c ∈ cs, ∀ e ∈ c.effects, e.deterministicKernel) →
      ∀ (img : Image) (rng1 rng2 : Rng),
        (compositeGo comp ext frame cs (img, rng1)).1 =
          (compositeGo comp ext frame cs (img, rng2)).1 := by
  intro cs
  induction cs with
  | nil => intro _ img rng1 rng2; rfl
  | cons c rest ih =>
    intro h img rng1 rng2
    have hc : ∀ e ∈ (CompositeLayer.make c frame).clip.effects,
        e.deterministicKernel := by
      rw [make_clip]
      exact h c (List.mem_cons_self c rest)
    have hrest := fun c2 hc2 => h c2 (List.mem_cons_of_mem c hc2)
    simp only [compositeGo]
    by_cases hv : (CompositeLayer.make c frame).visible = true ∧
        0 ≤ (CompositeLayer.make c frame).relative_frame
    · rw [if_pos hv, if_pos hv, render_layer_det comp ext _ hc rng1,
        render_layer_det comp ext _ hc rng2]
      cases renderLayerPure comp ext (CompositeLayer.make c frame) with
      | none => exact ih hrest img rng1 rng2
      | some li => exact ih hrest _ rng1 rng2
    · rw [if_neg hv, if_neg hv]
      exact ih hrest img rng1 rng2

theorem ordInsertTrackDesc_perm (a : TimelineClip) (l : List TimelineClip) :
    List.Perm (ordInsertTrackDesc a l) (a :: l) := by
  induction l with
  | nil => simp [ordInsertTrackDesc]
  | cons b l ih =>
    by_cases h : b.track ≤ a.track
    · simp [ordInsertTrackDesc, h]
    · simp only [ordInsertTrackDesc, if_neg h]
      exact (ih.cons b).trans (List.Perm.swap a b l)

theorem sortByTrackDesc_perm (l : List TimelineClip) :
    List.Perm (sortByTrackDesc l) l := by
  induction l with
  | nil => simp [sortByTrackDesc]
  | cons a l ih =>
    exact (ordInsertTrackDesc_perm a (sortByTrackDesc l)).trans (ih.cons a)

/-- Claim C9 amended: `composite_frame` is independent of the random
generator state - and therefore byte-identical across repeated calls
with identical clip list, frame and background - provided no clip
carries an effect that draws randomness (such as the noise effect);
with a noise effect the output draws fresh samples per call, so
byte-identical repetition is not guaranteed. -/
theorem composite_frame_det (comp : Compositor) (ext : Ext)
    (clips : List TimelineClip) (frame : Int) (bg : RGB)
    (h : ∀ c ∈ clips, ∀ e ∈ c.effects, e.deterministicKernel) :
    ∀ rng1 rng2,
      (comp.composite_frame ext clips frame bg rng1).1 =
        (comp.composite_frame ext clips frame bg rng2).1 := by
  intro rng1 rng2
  simp only [Compositor.composite_frame]
  by_cases ha : (activeClips clips frame).isEmpty
  · simp [ha]
  · rw [if_neg ha, if_neg ha]
    apply compositeGo_det
    intro c hc
    have hc2 : c ∈ activeClips clips frame :=
      ((sortByTrackDesc_perm _).mem_iff).mp hc
    have hc3 : c ∈ clips := by
      simp only [activeClips, List.mem_filter] at hc2
      exact hc2.1
    exact h c hc3

/-- Witness for the claim-C9 theorem: a clip with no effects composited
from two different generator states gives the same image. -/
theorem composite_frame_det_witness :
    (compW.composite_frame extW [clipW0] 0 ⟨0, 0, 0⟩ rngW).1 =
      (compW.composite_frame extW [clipW0] 0 ⟨0, 0, 0⟩
        { stream := fun _ => 5, cursor := 7 }).1 :=
  composite_frame_det compW extW [clipW0] 0 ⟨0, 0, 0⟩
    (by
      intro c hc e he
      rw [List.mem_singleton] at hc
      subst hc
      exact absurd he (List.not_mem_nil e))
    rngW { stream := fun _ => 5, cursor := 7 }

/-! ### A noise effect makes composite_frame non-repeatable -/

def imgN : Image := { width := 1, height := 1, pix := fun _ _ => ⟨0, 0, 0⟩ }

def noiseEff : Effect := { kernel := .noise 100 }

def clipN : TimelineClip :=
  { media_path := "n.png", media_type := "image", start_frame := 0,
    duration := 90, track := 0, opacity := 100, effects := [noiseEff] }

def extN : Ext :=
  { loadImage := fun _ _ _ => some imgN
    loadVideoFrame := fun _ _ _ _ => none
    audioViz := fun w h _ _ => { width := w, height := h, pix := fun _ _ => ⟨0, 0, 0⟩ }
    resizeTo := fun i _ _ => i
    warpRotate := fun i _ => i
    translateBy := fun i _ _ => i
    blendNonNormal := fun _ _ o => o }

def compN : Compositor := { width := 1, height := 1 }

/-- The sample stream n, n+1, n+2, ... starting at cursor 0. -/
def rngN : Rng := { stream := fun n => (n : ℚ), cursor := 0 }

def bgN : Image := fullImage 1 1 ⟨0, 0, 0⟩

def tN : Transform := (CompositeLayer.make clipN 0).transform

/-- The generator state after one noise draw over a 1x1 image. -/
def rngAfter (rng : Rng) : Rng := { rng with cursor := rng.cursor + 3 }

/-- The rendered layer for `clipN` from generator state `rng`: the black
1x1 source plus one gaussian sample per channel, clipped, then passed
through the NORMAL blend-mode round trip. -/
def noisedBlendN (rng : Rng) : Image :=
  { width := 1, height := 1, pix := fun y x =>
      (RGB.mapc (fun o => npU8 (o / 255 * 255))
        { r := npU8 (0 + 100 / 100 * 255 *
            rng.stream (rng.cursor + noiseSampleIndex 1 y x 0))
          g := npU8 (0 + 100 / 100 * 255 *
            rng.stream (rng.cursor + noiseSampleIndex 1 y x 1))
          b := npU8 (0 + 100 / 100 * 255 *
            rng.stream (rng.cursor + noiseSampleIndex 1 y x 2)) }) }

def c9call1 : Image × Rng := compN.composite_frame extN [clipN] 0 ⟨0, 0, 0⟩ rngN

def c9call2 : Image × Rng :=
  compN.composite_frame extN [clipN] 0 ⟨0, 0, 0⟩ c9call1.2

/-- Claim C9 counterexample: compositing the same clip list, frame and
background twice in a row is NOT byte-identical when a clip carries the
noise effect - the second call consumes later positions of the random
stream, so the two outputs differ already at pixel (0,0). -/
theorem noise_breaks_idempotence :
    c9call1.1.pix 0 0 ≠ c9call2.1.pix 0 0 := by
  have hstage : ∀ rng : Rng,
      compN.composite_frame extN [clipN] 0 ⟨0, 0, 0⟩ rng =
        (Compositor.overlay_image bgN (noisedBlendN rng) tN (tN.opacity / 100),
         rngAfter rng) := fun _ => rfl
  have hoverlay : ∀ rng : Rng,
      (Compositor.overlay_image bgN (noisedBlendN rng) tN
        (tN.opacity / 100)).pix 0 0 = (noisedBlendN rng).pix 0 0 := by
    intro rng
    have hop : tN.opacity / 100 = 1 := by
      rw [show tN.opacity = 100 from rfl]
      norm_num
    have hpx : truncInt tN.position_x = 0 := by
      rw [show tN.position_x = 0 + 0 from rfl]
      norm_num [truncInt]
    have hpy : truncInt tN.position_y = 0 := by
      rw [show tN.position_y = 0 + 0 from rfl]
      norm_num [truncInt]
    have hoff : overlayOffsets bgN.width bgN.height (noisedBlendN rng).width
        (noisedBlendN rng).height tN = (0, 0) := by
      simp [overlayOffsets, hpx, hpy, bgN, noisedBlendN, fullImage]
    rw [hop]
    simp only [Compositor.overlay_image, hoff]
    norm_num [bgN, fullImage, noisedBlendN]
  have hpix1 : (noisedBlendN rngN).pix 0 0 = ⟨0, 255, 255⟩ := by
    have hidx0 : rngN.cursor + noiseSampleIndex 1 0 0 0 = 0 := by decide
    have hidx1 : rngN.cursor + noiseSampleIndex 1 0 0 1 = 1 := by decide
    have hidx2 : rngN.cursor + noiseSampleIndex 1 0 0 2 = 2 := by decide
    have hs0 : rngN.stream 0 = 0 := by norm_num [rngN]
    have hs1 : rngN.stream 1 = 1 := by norm_num [rngN]
    have hs2 : rngN.stream 2 = 2 := by norm_num [rngN]
    simp only [noisedBlendN, hidx0, hidx1, hidx2, hs0, hs1, hs2, RGB.mapc]
    norm_num [npU8]
  have hpix2 : (noisedBlendN (rngAfter rngN)).pix 0 0 = ⟨255, 255, 255⟩ := by
    have hidx0 : (rngAfter rngN).cursor + noiseSampleIndex 1 0 0 0 = 3 := by decide
    have hidx1 : (rngAfter rngN).cursor + noiseSampleIndex 1 0 0 1 = 4 := by decide
    have hidx2 : (rngAfter rngN).cursor + noiseSampleIndex 1 0 0 2 = 5 := by decide
    have hs3 : (rngAfter rngN).stream 3 = 3 := by norm_num [rngN, rngAfter]
    have hs4 : (rngAfter rngN).stream 4 = 4 := by norm_num [rngN, rngAfter]
    have hs5 : (rngAfter rngN).stream 5 = 5 := by norm_num [rngN, rngAfter]
    simp only [noisedBlendN, hidx0, hidx1, hidx2, hs3, hs4, hs5, RGB.mapc]
    norm_num [npU8]
  have h1 : c9call1.1.pix 0 0 = (noisedBlendN rngN).pix 0 0 := by
    simp only [c9call1, hstage rngN]
    exact hoverlay rngN
  have hrng : c9call1.2 = rngAfter rngN := by
    simp only [c9call1, hstage rngN]
  have h2 : c9call2.1.pix 0 0 = (noisedBlendN (rngAfter rngN)).pix 0 0 := by
    simp only [c9call2, hrng, hstage (rngAfter rngN)]
    exact hoverlay (rngAfter rngN)
  rw [h1, h2, hpix1, hpix2]
  norm_num [RGB.mk.injEq]

end BLOUcut
